import Mathlib

/-!
Verification of the QueenGT inference scripts.

The definitions below are shallow embeddings of the Python sources
`Untitled-1.py` (the main script) and `infer_queen_GT2_latest.py`.
Strings are modelled with Lean `String`; Python float arithmetic on
thresholds and ratios is modelled with exact rationals (`ℚ`); Python
dicts are modelled as insertion-ordered association lists.
-/

/-! ## Basic string helpers mirroring the Python primitives -/

/-- Python `str.strip()`: remove leading and trailing whitespace. -/
def pyStrip (s : String) : String :=
  String.mk (((s.toList.dropWhile (fun c => c.isWhitespace)).reverse.dropWhile
    (fun c => c.isWhitespace)).reverse)

/-- Python `str.split('\t')`. -/
def splitTab (s : String) : List String :=
  (s.toList.splitOnP (fun c => c == '\t')).map (fun l => String.mk l)

/-- Python `str.split(':')`. -/
def splitColon (s : String) : List String :=
  (s.toList.splitOnP (fun c => c == ':')).map (fun l => String.mk l)

/-- Python `str.split()` with no argument: split on whitespace runs, dropping
empty tokens. -/
def pySplit (s : String) : List String :=
  ((s.toList.splitOnP (fun c => c.isWhitespace)).map (fun l => String.mk l)).filter
    (fun t => t != "")

/-- Python `str.startswith(p)`. -/
def startsWithS (s p : String) : Bool := p.toList.isPrefixOf s.toList

/-- Python `str.lstrip('#')`. -/
def lstripHash (s : String) : String :=
  String.mk (s.toList.dropWhile (fun c => c == '#'))

/-- Python `int(s)` on decimal numeral strings. -/
def pyToInt (s : String) : Int :=
  match s.toList with
  | '-' :: ds => -(ds.foldl (fun n c => n * 10 + (c.toNat - '0'.toNat)) 0 : Nat)
  | ds => (ds.foldl (fun n c => n * 10 + (c.toNat - '0'.toNat)) 0 : Nat)

/-! ## Association lists modelling Python dicts (insertion ordered) -/

/-- Lookup in an association list (Python `d.get(k)` / `d[k]`). -/
def alookup {β : Type} (k : String) : List (String × β) → Option β
  | [] => none
  | p :: ps => if p.1 = k then some p.2 else alookup k ps

/-- Python `d[k] = v`: replace the value of an existing key in place,
otherwise append the new key at the end (dicts preserve insertion order). -/
def setAt {β : Type} (m : List (String × β)) (k : String) (v : β) :
    List (String × β) :=
  match m with
  | [] => [(k, v)]
  | p :: ps => if p.1 = k then (k, v) :: ps else p :: setAt ps k v

/-- The keys of an association list, in order. -/
def keysOf {β : Type} (m : List (String × β)) : List String := m.map Prod.fst

/-! ## Consensus genotype inference (`infer_queen_gt_from_list`, Untitled-1.py
lines 104-128) -/

/-- Lines 106-109: filter valid drone genotypes (ignore missing):
haploid mode drops `'.'` and `''`; diploid mode drops `'./.'` and `''`. -/
def valid_gts (haploid : Bool) (drone_gts : List String) : List String :=
  if haploid then drone_gts.filter (fun gt => !(gt == "." || gt == ""))
  else drone_gts.filter (fun gt => !(gt == "./." || gt == ""))

/-- Lines 115-118: count how many valid calls have an alternate allele:
haploid compares against `'0'`, diploid against `'0/0'`. -/
def alt_count (haploid : Bool) (valid : List String) : ℕ :=
  if haploid then (valid.filter (fun gt => gt != "0")).length
  else (valid.filter (fun gt => gt != "0/0")).length

/-- Lines 104-128: infer the queen's diploid genotype from the drones' calls. -/
def infer_queen_gt_from_list (drone_gts : List String) (threshold : ℚ)
    (min_drones : ℕ) (haploid : Bool) : String :=
  let valid := valid_gts haploid drone_gts
  let total := valid.length
  if total < min_drones then "./."
  else
    let ratio : ℚ := (alt_count haploid valid : ℚ) / (total : ℚ)
    if ratio < threshold then "0/0"
    else if ratio > 1 - threshold then "1/1"
    else "0/1"

/-- The ratio `altCount / total` computed at line 120 (after the
`total < min_drones` guard). -/
def altRatio (haploid : Bool) (drone_gts : List String) : ℚ :=
  (alt_count haploid (valid_gts haploid drone_gts) : ℚ) /
    ((valid_gts haploid drone_gts).length : ℚ)

/-- Lines 92-96 of `get_queen_genotypes`: pull each drone's raw genotype field
out of the per-record sample map, substituting `'./.'` for an absent drone,
and keep only the leading `:`-separated sub-field, replacing a bare `'.'`
by `'./.'`. -/
def drone_gts_of (sample_data : List (String × String)) (drones : List String) :
    List String :=
  drones.map (fun d =>
    let gt := (alookup d sample_data).getD "./."
    if gt ≠ "." then (splitColon gt).headD "" else "./.")

/-- The spec's wording of "alternate-bearing": haploid iff the call is not
literally `'0'`, diploid iff the normalized call is not literally `'0/0'`. -/
def altBearing (haploid : Bool) (gt : String) : Bool :=
  if haploid then gt != "0" else gt != "0/0"

/-! ## Claim theorems about the core inference -/

/-- C1: for valid-call lists with `total ≥ M` and any threshold `T` in the
open interval `(0, 1/2)`, the decision rule of `infer_queen_gt_from_list`
returns `"0/0"` when `ratio < T`, `"1/1"` when `ratio > 1 - T`, and `"0/1"`
otherwise; in particular a ratio exactly equal to `T` or to `1 - T` yields
`"0/1"`. -/
theorem c1_threshold_decision (gts : List String) (T : ℚ) (M : ℕ) (hap : Bool)
    (_hT0 : 0 < T) (hT2 : T < 1/2) (hM : M ≤ (valid_gts hap gts).length) :
    (altRatio hap gts < T → infer_queen_gt_from_list gts T M hap = "0/0") ∧
    (altRatio hap gts > 1 - T → infer_queen_gt_from_list gts T M hap = "1/1") ∧
    (T ≤ altRatio hap gts ∧ altRatio hap gts ≤ 1 - T →
      infer_queen_gt_from_list gts T M hap = "0/1") ∧
    (altRatio hap gts = T → infer_queen_gt_from_list gts T M hap = "0/1") ∧
    (altRatio hap gts = 1 - T → infer_queen_gt_from_list gts T M hap = "0/1") := by
  have hnot : ¬ (valid_gts hap gts).length < M := not_lt.mpr hM
  simp only [infer_queen_gt_from_list, altRatio, if_neg hnot]
  refine ⟨fun h => if_pos h, fun h => ?_, fun h => ?_, fun h => ?_, fun h => ?_⟩
  · have h1 : ¬ (alt_count hap (valid_gts hap gts) : ℚ) /
        ((valid_gts hap gts).length : ℚ) < T := by
      push_neg
      calc T ≤ 1 - T := by linarith
        _ ≤ _ := le_of_lt h
    rw [if_neg h1, if_pos h]
  · rw [if_neg (not_lt.mpr h.1), if_neg (not_lt.mpr h.2)]
  · rw [if_neg (not_lt.mpr (le_of_eq h.symm)),
      if_neg (not_lt.mpr (by rw [h]; linarith))]
  · rw [if_neg (not_lt.mpr (by rw [h]; linarith)),
      if_neg (not_lt.mpr (le_of_eq h))]

/-- Witness for C1: spec Scenario B — haploid calls `['0','0','0','1']`,
`T = 1/8`, `M = 2`: ratio `1/4` lies in the dead zone, result `"0/1"`. -/
theorem c1_threshold_decision_witness :
    (0 : ℚ) < 1/8 ∧ (1/8 : ℚ) < 1/2 ∧
      2 ≤ (valid_gts true ["0", "0", "0", "1"]).length ∧
      infer_queen_gt_from_list ["0", "0", "0", "1"] (1/8) 2 true = "0/1" := by
  refine ⟨by norm_num, by norm_num, by decide, ?_⟩
  refine (c1_threshold_decision ["0", "0", "0", "1"] (1/8) 2 true
    (by norm_num) (by norm_num) (by decide)).2.2.1 ⟨?_, ?_⟩
  · simp only [altRatio,
      show valid_gts true ["0", "0", "0", "1"] = ["0", "0", "0", "1"] from by decide,
      show alt_count true ["0", "0", "0", "1"] = 1 from by decide]
    norm_num
  · simp only [altRatio,
      show valid_gts true ["0", "0", "0", "1"] = ["0", "0", "0", "1"] from by decide,
      show alt_count true ["0", "0", "0", "1"] = 1 from by decide]
    norm_num

/-- C2: `infer_queen_gt_from_list` returns the missing call `"./."` exactly
when the number of valid calls is strictly below `min_drones`; at
`total = M - 1` the result is missing, and at `total = M` the threshold
decision rule applies. -/
theorem c2_min_drones_guard (gts : List String) (T : ℚ) (M : ℕ) (hap : Bool)
    (hM : 1 ≤ M) :
    (infer_queen_gt_from_list gts T M hap = "./." ↔
      (valid_gts hap gts).length < M) ∧
    ((valid_gts hap gts).length = M - 1 →
      infer_queen_gt_from_list gts T M hap = "./.") ∧
    ((valid_gts hap gts).length = M →
      infer_queen_gt_from_list gts T M hap =
        (if altRatio hap gts < T then "0/0"
         else if altRatio hap gts > 1 - T then "1/1" else "0/1")) := by
  by_cases hlt : (valid_gts hap gts).length < M
  · have hres : infer_queen_gt_from_list gts T M hap = "./." := by
      simp only [infer_queen_gt_from_list, if_pos hlt]
    exact ⟨⟨fun _ => hlt, fun _ => hres⟩, fun _ => hres, fun h => absurd hlt (by omega)⟩
  · have hres : infer_queen_gt_from_list gts T M hap =
        (if altRatio hap gts < T then "0/0"
         else if altRatio hap gts > 1 - T then "1/1" else "0/1") := by
      simp only [infer_queen_gt_from_list, altRatio, if_neg hlt]
    have hne : infer_queen_gt_from_list gts T M hap ≠ "./." := by
      rw [hres]; split_ifs <;> simp
    exact ⟨⟨fun h => absurd h hne, fun h => absurd h hlt⟩,
      fun h => absurd (show (valid_gts hap gts).length < M by omega) hlt,
      fun _ => hres⟩

/-- Witness for C2: spec Scenario C — diploid calls `['./.','./.']`, `M = 2`:
no valid calls, result `"./."`, and the boundary facts at `M = 2`. -/
theorem c2_min_drones_guard_witness :
    1 ≤ 2 ∧
      (infer_queen_gt_from_list ["./.", "./."] (1/8) 2 false = "./." ↔
        (valid_gts false ["./.", "./."]).length < 2) ∧
      infer_queen_gt_from_list ["./.", "./."] (1/8) 2 false = "./." := by
  have h := c2_min_drones_guard ["./.", "./."] (1/8) 2 false (by norm_num)
  exact ⟨by norm_num, h.1, h.1.mpr (by decide)⟩

/-- C10: the inference is total and its result is always one of the four
diploid-form strings `"./."`, `"0/0"`, `"0/1"`, `"1/1"` (even in haploid
input mode); the ratio's division is only reached past the
`total < min_drones` guard, where `M ≥ 1` forces `total ≥ 1 > 0`. -/
theorem c10_total_codomain (gts : List String) (T : ℚ) (M : ℕ) (hap : Bool) :
    (infer_queen_gt_from_list gts T M hap = "./." ∨
     infer_queen_gt_from_list gts T M hap = "0/0" ∨
     infer_queen_gt_from_list gts T M hap = "0/1" ∨
     infer_queen_gt_from_list gts T M hap = "1/1") ∧
    (1 ≤ M → ¬ (valid_gts hap gts).length < M →
      0 < (valid_gts hap gts).length) := by
  constructor
  · simp only [infer_queen_gt_from_list]
    split_ifs <;> simp
  · intro h1 h2
    omega

/-- Witness for C10 at a concrete input: haploid list `['0']` with `M = 1`. -/
theorem c10_total_codomain_witness :
    (infer_queen_gt_from_list ["0"] (1/8) 1 true = "./." ∨
     infer_queen_gt_from_list ["0"] (1/8) 1 true = "0/0" ∨
     infer_queen_gt_from_list ["0"] (1/8) 1 true = "0/1" ∨
     infer_queen_gt_from_list ["0"] (1/8) 1 true = "1/1") ∧
    0 < (valid_gts true ["0"]).length :=
  ⟨(c10_total_codomain ["0"] (1/8) 1 true).1,
   (c10_total_codomain ["0"] (1/8) 1 true).2 (by norm_num) (by decide)⟩

/-- C3 (code bug exhibit): in haploid mode the pipeline counts missing data as
valid alternate calls. `get_queen_genotypes` substitutes `"./."` both for a
drone absent from the sample map and for a raw `"."` field, but the haploid
filter only drops `"."` and `""`, so the substituted `"./."` passes the filter
and is counted as alternate-bearing: with sample data `d1 ↦ "0"`, `d2 ↦ "."`
and pedigree drones `d1, d2, d3` (`d3` absent), all three normalized calls are
kept (`total = 3`, `altCount = 2`) and the result is `"0/1"` instead of the
`"./."` (`total = 1 < 2`) the spec's exclusion rule demands. -/
theorem c3_haploid_missing_counted :
    drone_gts_of [("d1", "0"), ("d2", ".")] ["d1", "d2", "d3"] =
      ["0", "./.", "./."] ∧
    valid_gts true ["0", "./.", "./."] = ["0", "./.", "./."] ∧
    alt_count true ["0", "./.", "./."] = 2 ∧
    infer_queen_gt_from_list ["0", "./.", "./."] (1/4) 2 true = "0/1" := by
  refine ⟨by decide, by decide, by decide, ?_⟩
  simp only [infer_queen_gt_from_list,
    show valid_gts true ["0", "./.", "./."] = ["0", "./.", "./."] from by decide,
    show alt_count true ["0", "./.", "./."] = 2 from by decide]
  norm_num

/-- C4: `alt_count` counts exactly the calls that differ from the reference
form by literal string comparison — `≠ "0"` in haploid mode, `≠ "0/0"` in
diploid mode — so any other two-allele string counts as alternate-bearing:
e.g. the multi-allelic `"0/3"` (which contains neither allele `1` nor `2`)
drives the inference to `"1/1"`. -/
theorem c4_literal_alt_counting :
    (∀ l : List String, alt_count true l = l.countP (fun gt => gt != "0")) ∧
    (∀ l : List String, alt_count false l = l.countP (fun gt => gt != "0/0")) ∧
    (∀ l : List String, alt_count false l = l.countP (altBearing false)) ∧
    infer_queen_gt_from_list ["0/3", "0/3"] (1/8) 2 false = "1/1" := by
  refine ⟨fun l => ?_, fun l => ?_, fun l => ?_, ?_⟩
  · simp [alt_count, List.countP_eq_length_filter]
  · simp [alt_count, List.countP_eq_length_filter]
  · have hfb : altBearing false = (fun gt => gt != "0/0") := by
      funext gt; simp [altBearing]
    simp [alt_count, hfb, List.countP_eq_length_filter]
  · simp only [infer_queen_gt_from_list,
      show valid_gts false ["0/3", "0/3"] = ["0/3", "0/3"] from by decide,
      show alt_count false ["0/3", "0/3"] = 2 from by decide]
    norm_num

/-! ## Association-list lemmas -/

theorem keysOf_cons {β : Type} (p : String × β) (ps : List (String × β)) :
    keysOf (p :: ps) = p.1 :: keysOf ps := rfl

theorem alookup_setAt {β : Type} (m : List (String × β)) (k : String) (v : β)
    (k' : String) :
    alookup k' (setAt m k v) = if k' = k then some v else alookup k' m := by
  induction m with
  | nil =>
    by_cases h : k' = k
    · subst h; simp [setAt, alookup]
    · have h2 : ¬ k = k' := fun hh => h hh.symm
      simp [setAt, alookup, h, h2]
  | cons p ps ih =>
    simp only [setAt]
    by_cases hp : p.1 = k
    · rw [if_pos hp]
      by_cases h : k' = k
      · subst h; simp [alookup]
      · have h2 : ¬ k = k' := fun hh => h hh.symm
        have h3 : ¬ p.1 = k' := hp ▸ h2
        simp [alookup, h, h2, h3]
    · rw [if_neg hp]
      simp only [alookup, ih]
      by_cases hq : p.1 = k'
      · have h4 : ¬ k' = k := fun hh => hp (hq.trans hh)
        simp [hq, h4]
      · simp [hq]

theorem keysOf_setAt {β : Type} (m : List (String × β)) (k : String) (v : β) :
    keysOf (setAt m k v) = if k ∈ keysOf m then keysOf m else keysOf m ++ [k] := by
  induction m with
  | nil => simp [setAt, keysOf]
  | cons p ps ih =>
    simp only [setAt]
    by_cases hp : p.1 = k
    · have hmem : k ∈ keysOf (p :: ps) := by
        rw [keysOf_cons, hp]; exact List.mem_cons_self _ _
      rw [if_pos hp, if_pos hmem, keysOf_cons, keysOf_cons, hp]
    · rw [if_neg hp, keysOf_cons, keysOf_cons, ih]
      by_cases hm : k ∈ keysOf ps
      · rw [if_pos hm, if_pos (List.mem_cons_of_mem _ hm)]
      · have hc : k ∉ p.1 :: keysOf ps := by
          intro hd
          rcases List.mem_cons.mp hd with h1 | h2
          · exact hp h1.symm
          · exact hm h2
        rw [if_neg hm, if_neg hc]
        rfl

/-! ## Pedigree loaders -/

/-- `defaultdict(list)` append: `queen_map[k].append(v)` — extend the list of
an existing key in place, otherwise insert `(k, [v])` at the end. -/
def dd_append (m : List (String × List String)) (k v : String) :
    List (String × List String) :=
  match m with
  | [] => [(k, [v])]
  | p :: ps => if p.1 = k then (p.1, p.2 ++ [v]) :: ps else p :: dd_append ps k v

/-- Untitled-1.py lines 177-185: for each list line, `parts = line.strip().split()`;
with at least two tokens, `queen, drone = parts[0], parts[1]` and
`queen_map[queen].append(drone)`; shorter lines are skipped. -/
def build_queen_map (ls : List String) : List (String × List String) :=
  ls.foldl (fun m line =>
    match pySplit (pyStrip line) with
    | q :: d :: _ => dd_append m q d
    | _ => m) []

/-- infer_queen_GT2_latest.py lines 46-55: for each list line with at least
two tokens, `droneID.append(parts[0].strip())` and
`queenID.append(parts[1].strip())`. -/
def drone_queen_ids (ls : List String) : List String × List String :=
  ls.foldl (fun dq line =>
    match pySplit (pyStrip line) with
    | a :: b :: _ => (dq.1 ++ [pyStrip a], dq.2 ++ [pyStrip b])
    | _ => dq) ([], [])

theorem alookup_dd_append_self (m : List (String × List String)) (k v : String) :
    alookup k (dd_append m k v) = some ((alookup k m).getD [] ++ [v]) := by
  induction m with
  | nil => simp [dd_append, alookup]
  | cons p ps ih =>
    by_cases hp : p.1 = k
    · simp [dd_append, alookup, hp]
    · simp [dd_append, alookup, hp, ih]

/-- C5 counterexample: on the single pedigree line `"D1 Q1"`, the main
script's loader files the SECOND token `"Q1"` under the FIRST token `"D1"`:
the resulting map has no entry for `"Q1"` at all, so the first token is not
treated as a drone appended to the second token's queen list. -/
theorem c5_counterexample_first_token_is_key :
    build_queen_map ["D1 Q1"] = [("D1", ["Q1"])] ∧
    alookup "Q1" (build_queen_map ["D1 Q1"]) = none := by
  constructor <;> decide

/-- C5 (amended): the two loaders disagree. In Untitled-1.py a line whose
tokens are `t0 t1` appends the second token `t1` to the drone list keyed by
the FIRST token `t0` (so the first token is the queen identifier there),
while infer_queen_GT2_latest.py records the first token as a drone identifier
and the second as its queen identifier. -/
theorem c5_pedigree_token_roles (ls : List String) (line t0 t1 : String)
    (rest : List String) (h : pySplit (pyStrip line) = t0 :: t1 :: rest) :
    alookup t0 (build_queen_map (ls ++ [line])) =
      some ((alookup t0 (build_queen_map ls)).getD [] ++ [t1]) ∧
    drone_queen_ids (ls ++ [line]) =
      ((drone_queen_ids ls).1 ++ [pyStrip t0],
       (drone_queen_ids ls).2 ++ [pyStrip t1]) := by
  constructor
  · rw [build_queen_map, List.foldl_append]
    simp only [List.foldl_cons, List.foldl_nil, h]
    exact alookup_dd_append_self _ _ _
  · rw [drone_queen_ids, List.foldl_append]
    simp only [List.foldl_cons, List.foldl_nil, h]
    rfl

/-- Witness for C5's amended statement on the concrete line `"A B"`. -/
theorem c5_pedigree_token_roles_witness :
    pySplit (pyStrip "A B") = "A" :: "B" :: [] ∧
    (alookup "A" (build_queen_map ([] ++ ["A B"])) =
       some ((alookup "A" (build_queen_map [])).getD [] ++ ["B"]) ∧
     drone_queen_ids ([] ++ ["A B"]) =
       ((drone_queen_ids []).1 ++ [pyStrip "A"],
        (drone_queen_ids []).2 ++ [pyStrip "B"])) :=
  ⟨by decide, c5_pedigree_token_roles [] "A B" "A" "B" [] (by decide)⟩

/-! ## Per-queen task results and the aggregator's merge (main lines 199-208) -/

/-- The triple returned by `get_queen_genotypes`: the queen's name, her
variant-key → genotype map, and the variant-key → fixed-columns map. -/
structure TaskOut where
  queen : String
  gts : List (String × String)
  info : List (String × List String)

/-- `all_genotypes[vk][q] = gt` on a `defaultdict(dict)`. -/
def setAt2 (ag : List (String × List (String × String))) (vk q gt : String) :
    List (String × List (String × String)) :=
  setAt ag vk (setAt ((alookup vk ag).getD []) q gt)

/-- Main lines 204-208: fold one task's result into the accumulators —
`all_genotypes[variant_key][queen_name] = gt` and
`shared_info_map[variant_key] = info_map[variant_key]`. -/
def merge_task
    (acc : List (String × List (String × String)) × List (String × List String))
    (t : TaskOut) :
    List (String × List (String × String)) × List (String × List String) :=
  t.gts.foldl (fun a vg =>
    (setAt2 a.1 vg.1 t.queen vg.2,
     setAt a.2 vg.1 ((alookup vg.1 t.info).getD []))) acc

/-- The aggregator: merge every task result, in the order the futures are
consumed, starting from empty accumulators. -/
def mergeAll (outs : List TaskOut) :
    List (String × List (String × String)) × List (String × List String) :=
  outs.foldl merge_task ([], [])

theorem merge_task_info_alookup
    (acc : List (String × List (String × String)) × List (String × List String))
    (t : TaskOut) (vk : String) :
    alookup vk (merge_task acc t).2 =
      if vk ∈ keysOf t.gts then some ((alookup vk t.info).getD [])
      else alookup vk acc.2 := by
  obtain ⟨q, gts, info⟩ := t
  simp only [merge_task]
  induction gts generalizing acc with
  | nil => simp [keysOf]
  | cons vg l ih =>
    rw [List.foldl_cons, ih]
    dsimp only
    by_cases hm : vk ∈ keysOf l
    · rw [if_pos hm,
        if_pos (by rw [keysOf_cons]; exact List.mem_cons_of_mem _ hm)]
    · rw [if_neg hm]
      by_cases hv : vk = vg.1
      · rw [if_pos (by rw [keysOf_cons, hv]; exact List.mem_cons_self _ _),
          alookup_setAt, if_pos hv, hv]
      · rw [if_neg (by
            rw [keysOf_cons]
            intro hc
            rcases List.mem_cons.mp hc with h1 | h2
            · exact hv h1
            · exact hm h2),
          alookup_setAt, if_neg hv]

/-- C6 counterexample: two task results carry different annotation columns
for the same variant key `"k"`; the merge raises no error and simply keeps
the columns of the task merged last. -/
theorem c6_counterexample_no_consistency_check :
    (mergeAll [⟨"q1", [("k", "0/0")], [("k", ["i1"])]⟩,
               ⟨"q2", [("k", "1/1")], [("k", ["i2"])]⟩]).2 = [("k", ["i2"])] ∧
    alookup "k" (mergeAll [⟨"q1", [("k", "0/0")], [("k", ["i1"])]⟩,
               ⟨"q2", [("k", "1/1")], [("k", ["i2"])]⟩]).2 = some ["i2"] := by
  constructor <;> rfl

/-- C6 (amended): the aggregator performs no consistency check on annotation
columns. For every variant key, the merged `shared_info_map` holds the
columns of the LAST merged task whose genotype map contains that key,
silently overwriting earlier queens' versions. -/
theorem c6_last_writer_wins (outs : List TaskOut) (t : TaskOut) (vk : String) :
    alookup vk (mergeAll (outs ++ [t])).2 =
      if vk ∈ keysOf t.gts then some ((alookup vk t.info).getD [])
      else alookup vk (mergeAll outs).2 := by
  rw [mergeAll, List.foldl_append, List.foldl_cons, List.foldl_nil]
  exact merge_task_info_alookup _ _ _

/-! ## Per-queen task (`get_queen_genotypes`, Untitled-1.py lines 67-102) -/

/-- Lines 72-76: scan the file for the first `#CHROM` line; return it
stripped, together with the remaining lines, or `none` if absent. -/
def find_header : List String → Option (String × List String)
  | [] => none
  | l :: ls => if startsWithS l "#CHROM" then some (pyStrip l, ls) else find_header ls

/-- The body of the data loop (lines 84-99), genotype side: skip further
`#`-lines; otherwise split into tab fields, build the sample-name → field
dict, take the first five fields as the variant key, normalize the drones'
calls and record the inferred queen genotype under the key. -/
def gt_step (sample_names drones : List String) (threshold : ℚ)
    (min_drones : ℕ) (haploid : Bool) (g : List (String × String))
    (line : String) : List (String × String) :=
  if startsWithS line "#" then g
  else
    let parts := splitTab (pyStrip line)
    let sample_data := (sample_names.zip (parts.drop 9)).foldl
      (fun m kv => setAt m kv.1 kv.2) []
    let variant_key := String.intercalate "\t" (parts.take 5)
    setAt g variant_key
      (infer_queen_gt_from_list (drone_gts_of sample_data drones)
        threshold min_drones haploid)

/-- Lines 84-99, genotype side: fold the data loop over all lines after the
header. -/
def task_genotypes (sample_names : List String) (dataLines : List String)
    (drones : List String) (threshold : ℚ) (min_drones : ℕ) (haploid : Bool) :
    List (String × String) :=
  dataLines.foldl (gt_step sample_names drones threshold min_drones haploid) []

/-- The body of the data loop, annotation side:
`info_map[variant_key] = parts[:9]`; it does not depend on the queen or her
drones. -/
def info_step (im : List (String × List String)) (line : String) :
    List (String × List String) :=
  if startsWithS line "#" then im
  else
    let parts := splitTab (pyStrip line)
    setAt im (String.intercalate "\t" (parts.take 5)) (parts.take 9)

/-- Lines 84-100, annotation side. -/
def task_info (dataLines : List String) : List (String × List String) :=
  dataLines.foldl info_step []

/-- The task body once the header is found: sample names are the header
columns from index 9 on (line 81-82). -/
def task_of (hdr : String) (rest : List String) (queen : String)
    (drones : List String) (threshold : ℚ) (min_drones : ℕ) (haploid : Bool) :
    TaskOut :=
  ⟨queen,
   task_genotypes ((splitTab (lstripHash hdr)).drop 9) rest drones threshold
     min_drones haploid,
   task_info rest⟩

/-- Lines 67-102: the per-queen task; raises (models `raise ValueError`) when
no `#CHROM` line exists. -/
def get_queen_genotypes (lines : List String) (queen : String)
    (drones : List String) (threshold : ℚ) (min_drones : ℕ) (haploid : Bool) :
    Except String TaskOut :=
  match find_header lines with
  | none => Except.error "No #CHROM line found in VCF"
  | some (hdr, rest) =>
      Except.ok (task_of hdr rest queen drones threshold min_drones haploid)

/-- Lines 130-137: the pre-task header scan used by `main`; returns the
sample names of the first `#CHROM` line, or `[]` — not an error — when no
such line exists. -/
def extract_samples_from_header (lines : List String) : List String :=
  match lines.find? (fun l => startsWithS l "#CHROM") with
  | some line => (splitTab (pyStrip (lstripHash line))).drop 9
  | none => []

theorem find_header_eq_none (lines : List String)
    (h : ∀ l ∈ lines, startsWithS l "#CHROM" = false) :
    find_header lines = none := by
  induction lines with
  | nil => rfl
  | cons l ls ih =>
    rw [find_header, if_neg (by simp [h l (List.mem_cons_self _ _)])]
    exact ih (fun x hx => h x (List.mem_cons_of_mem _ hx))

/-- C7 counterexample: a file with metadata and a data row but no `#CHROM`
line. The pre-task scan `extract_samples_from_header` returns `[]` without
raising any error — so the run does NOT abort before tasks start — while
each per-queen task later fails with the `ValueError` inside
`get_queen_genotypes`. -/
theorem c7_counterexample_no_abort_before_tasks :
    extract_samples_from_header
      ["##meta", "1\t2\t.\tA\tT\t.\t.\t.\tGT\t0/0"] = [] ∧
    get_queen_genotypes ["##meta", "1\t2\t.\tA\tT\t.\t.\t.\tGT\t0/0"]
      "q" ["d"] (1/8) 2 false = Except.error "No #CHROM line found in VCF" := by
  constructor <;> rfl

/-- C7 (amended): when the input has no sample-header line, the pre-task
header scan silently returns an empty sample list (no FormatError), and the
failure — `ValueError: No #CHROM line found in VCF` — is raised inside each
per-queen task's own scan, i.e. after tasks have started, not before. -/
theorem c7_header_error_raised_in_task (lines : List String) (queen : String)
    (drones : List String) (T : ℚ) (M : ℕ) (hap : Bool)
    (h : ∀ l ∈ lines, startsWithS l "#CHROM" = false) :
    extract_samples_from_header lines = [] ∧
    get_queen_genotypes lines queen drones T M hap =
      Except.error "No #CHROM line found in VCF" := by
  constructor
  · rw [extract_samples_from_header]
    rw [List.find?_eq_none.mpr (fun x hx => by simp [h x hx])]
  · rw [get_queen_genotypes, find_header_eq_none lines h]

/-- Witness for C7's amended statement on a concrete header-less file. -/
theorem c7_header_error_raised_in_task_witness :
    (∀ l ∈ ["##meta", "##other"], startsWithS l "#CHROM" = false) ∧
    (extract_samples_from_header ["##meta", "##other"] = [] ∧
     get_queen_genotypes ["##meta", "##other"] "q1" ["d1"] (1/8) 2 true =
       Except.error "No #CHROM line found in VCF") :=
  ⟨by decide, c7_header_error_raised_in_task ["##meta", "##other"] "q1" ["d1"]
    (1/8) 2 true (by decide)⟩

/-! ## Sorting and the combined writer (`variant_key_sorter`,
`write_combined_vcf`, Untitled-1.py lines 139-162) -/

/-- Lines 139-142: `chrom, pos, *_ = key.split('\t'); return (chrom, int(pos))`. -/
def variant_key_sorter (key : String) : String × Int :=
  ((splitTab key).headD "", pyToInt (((splitTab key).drop 1).headD ""))

/-- Code-point lexicographic strict comparison of character lists: Python's
`<` on strings, used inside tuple comparison by `sorted`. -/
def listLtb : List Char → List Char → Bool
  | [], [] => false
  | [], _ :: _ => true
  | _ :: _, [] => false
  | a :: as, b :: bs =>
      if a < b then true else if b < a then false else listLtb as bs

/-- Python `a < b` on strings. -/
def strLtb (a b : String) : Bool := listLtb a.toList b.toList

/-- Python `<=` on the `(str, int)` sort keys produced by
`variant_key_sorter`: chromosome first under lexicographic string order,
then position under integer order. -/
def sorter_le (a b : String) : Prop :=
  strLtb (variant_key_sorter a).1 (variant_key_sorter b).1 = true ∨
  ((variant_key_sorter a).1 = (variant_key_sorter b).1 ∧
   (variant_key_sorter a).2 ≤ (variant_key_sorter b).2)

instance : DecidableRel sorter_le := fun a b => by unfold sorter_le; infer_instance

/-- Line 146: `sorted(all_genotypes.keys(), key=variant_key_sorter)`
(a stable sort by the key tuples). -/
def sorted_variant_keys (ks : List String) : List String :=
  List.insertionSort sorter_le ks

/-- Lines 154-156: the rewritten sample-header line — the nine fixed columns
followed by the queens' names. -/
def output_header (hdrLine : String) (queen_names : List String) : List String :=
  (splitTab (pyStrip hdrLine)).take 9 ++ queen_names

/-- Lines 159-162: one row per sorted variant key — the stored annotation
columns followed by `all_genotypes[variant_key].get(q, './.')` for each
queen, in `queen_names` order. -/
def output_rows (queen_names : List String)
    (all_genotypes : List (String × List (String × String)))
    (info_map : List (String × List String)) : List (List String) :=
  (sorted_variant_keys (keysOf all_genotypes)).map (fun vk =>
    ((alookup vk info_map).getD []) ++
      queen_names.map (fun q =>
        (alookup q ((alookup vk all_genotypes).getD [])).getD "./."))

/-- The aggregator plus writer: merge the task results in the order they are
consumed, then emit the rewritten header and the sorted data rows. -/
def combine_and_write (hdrLine : String) (queen_names : List String)
    (outs : List TaskOut) : List String × List (List String) :=
  let m := mergeAll outs
  (output_header hdrLine queen_names, output_rows queen_names m.1 m.2)

theorem listLtb_trichotomy (a : List Char) :
    ∀ b : List Char, listLtb a b = true ∨ a = b ∨ listLtb b a = true := by
  induction a with
  | nil =>
    intro b
    cases b with
    | nil => exact Or.inr (Or.inl rfl)
    | cons y bs => exact Or.inl (by simp [listLtb])
  | cons x as ih =>
    intro b
    cases b with
    | nil => exact Or.inr (Or.inr (by simp [listLtb]))
    | cons y bs =>
      rcases lt_trichotomy x y with h | h | h
      · exact Or.inl (by simp [listLtb, h])
      · subst h
        rcases ih bs with h2 | h2 | h2
        · exact Or.inl (by simp [listLtb, lt_irrefl, h2])
        · exact Or.inr (Or.inl (by rw [h2]))
        · exact Or.inr (Or.inr (by simp [listLtb, lt_irrefl, h2]))
      · exact Or.inr (Or.inr (by simp [listLtb, h]))

theorem listLtb_trans (a : List Char) :
    ∀ b c : List Char, listLtb a b = true → listLtb b c = true →
      listLtb a c = true := by
  induction a with
  | nil =>
    intro b c hab hbc
    cases b with
    | nil => simp [listLtb] at hab
    | cons y bs =>
      cases c with
      | nil => simp [listLtb] at hbc
      | cons z cs => simp [listLtb]
  | cons x as ih =>
    intro b c hab hbc
    cases b with
    | nil => simp [listLtb] at hab
    | cons y bs =>
      cases c with
      | nil => simp [listLtb] at hbc
      | cons z cs =>
        simp only [listLtb] at hab hbc ⊢
        by_cases hxy : x < y
        · by_cases hyz : y < z
          · rw [if_pos (lt_trans hxy hyz)]
          · rw [if_neg hyz] at hbc
            by_cases hzy : z < y
            · rw [if_pos hzy] at hbc; exact absurd hbc (by simp)
            · have hyz2 : y = z := le_antisymm (not_lt.mp hzy) (not_lt.mp hyz)
              rw [if_pos (by rw [← hyz2]; exact hxy)]
        · rw [if_neg hxy] at hab
          by_cases hyx : y < x
          · rw [if_pos hyx] at hab; exact absurd hab (by simp)
          · rw [if_neg hyx] at hab
            have hxy2 : x = y := le_antisymm (not_lt.mp hyx) (not_lt.mp hxy)
            by_cases hyz : y < z
            · rw [if_pos (by rw [hxy2]; exact hyz)]
            · rw [if_neg hyz] at hbc
              by_cases hzy : z < y
              · rw [if_pos hzy] at hbc; exact absurd hbc (by simp)
              · rw [if_neg hzy] at hbc
                rw [if_neg (by rw [hxy2]; exact hyz),
                  if_neg (fun hzx : z < x => hzy (by rw [← hxy2]; exact hzx))]
                exact ih bs cs hab hbc

theorem strLtb_trichotomy (a b : String) :
    strLtb a b = true ∨ a = b ∨ strLtb b a = true := by
  rcases listLtb_trichotomy a.toList b.toList with h | h | h
  · exact Or.inl h
  · exact Or.inr (Or.inl (congrArg String.mk h))
  · exact Or.inr (Or.inr h)

instance : IsTrans String sorter_le := ⟨by
  intro a b c hab hbc
  rcases hab with h1 | ⟨h1, h1'⟩
  · rcases hbc with h2 | ⟨h2, h2'⟩
    · exact Or.inl (listLtb_trans _ _ _ h1 h2)
    · exact Or.inl (by rw [← h2]; exact h1)
  · rcases hbc with h2 | ⟨h2, h2'⟩
    · exact Or.inl (by rw [h1]; exact h2)
    · exact Or.inr ⟨h1.trans h2, le_trans h1' h2'⟩⟩

instance : IsTotal String sorter_le := ⟨by
  intro a b
  rcases strLtb_trichotomy (variant_key_sorter a).1 (variant_key_sorter b).1
    with h | h | h
  · exact Or.inl (Or.inl h)
  · rcases le_total (variant_key_sorter a).2 (variant_key_sorter b).2 with h2 | h2
    · exact Or.inl (Or.inr ⟨h, h2⟩)
    · exact Or.inr (Or.inr ⟨h.symm, h2⟩)
  · exact Or.inr (Or.inl h)⟩

/-- C8: the variant-key sequence driving the output rows is sorted with
primary key chromosome under lexicographic string order and secondary key
position under ascending integer order; in particular chromosome `"10"`
sorts before `"2"` (string order), while positions `2` and `10` on the same
chromosome sort numerically. -/
theorem c8_rows_sorted_lex_chrom_then_int_pos
    (ag : List (String × List (String × String))) :
    List.Sorted sorter_le (sorted_variant_keys (keysOf ag)) ∧
    sorted_variant_keys ["2\t1\tx", "10\t1\ty"] = ["10\t1\ty", "2\t1\tx"] ∧
    sorted_variant_keys ["1\t10\ta", "1\t2\tb"] = ["1\t2\tb", "1\t10\ta"] :=
  ⟨List.sorted_insertionSort sorter_le (keysOf ag), by decide, by decide⟩

/-! ## Lemmas for the determinism claim -/

theorem alookup_eq_none_of_not_mem {β : Type} (k : String)
    (m : List (String × β)) (h : k ∉ keysOf m) : alookup k m = none := by
  induction m with
  | nil => rfl
  | cons p ps ih =>
    rw [alookup, if_neg (fun hp : p.1 = k => h (by
      rw [keysOf_cons, hp]; exact List.mem_cons_self _ _))]
    exact ih (fun hk => h (by rw [keysOf_cons]; exact List.mem_cons_of_mem _ hk))

theorem keysOf_task_genotypes_eq (dataLines : List String)
    (sn ds : List String) (T : ℚ) (M : ℕ) (hap : Bool) :
    keysOf (task_genotypes sn dataLines ds T M hap) =
      keysOf (task_info dataLines) := by
  suffices h : ∀ (g : List (String × String)) (im : List (String × List String)),
      keysOf g = keysOf im →
      keysOf (dataLines.foldl (gt_step sn ds T M hap) g) =
        keysOf (dataLines.foldl info_step im) by
    exact h [] [] rfl
  induction dataLines with
  | nil => intro g im h; exact h
  | cons line ls ih =>
    intro g im h
    rw [List.foldl_cons, List.foldl_cons]
    apply ih
    by_cases hc : startsWithS line "#"
    · simp only [gt_step, info_step, if_pos hc]; exact h
    · simp only [gt_step, info_step, if_neg hc]
      rw [keysOf_setAt, keysOf_setAt, h]

theorem nodup_keysOf_setAt {β : Type} (m : List (String × β)) (k : String)
    (v : β) (h : (keysOf m).Nodup) : (keysOf (setAt m k v)).Nodup := by
  rw [keysOf_setAt]
  by_cases hm : k ∈ keysOf m
  · rw [if_pos hm]; exact h
  · rw [if_neg hm, List.nodup_append]
    exact ⟨h, List.nodup_singleton _,
      fun a ha hb => by simp at hb; exact hm (hb ▸ ha)⟩

theorem nodup_keysOf_task_info (dataLines : List String) :
    (keysOf (task_info dataLines)).Nodup := by
  suffices h : ∀ im : List (String × List String), (keysOf im).Nodup →
      (keysOf (dataLines.foldl info_step im)).Nodup by
    exact h [] (by simp [keysOf])
  induction dataLines with
  | nil => intro im h; exact h
  | cons line ls ih =>
    intro im h
    rw [List.foldl_cons]
    apply ih
    simp only [info_step]
    by_cases hc : startsWithS line "#"
    · rw [if_pos hc]; exact h
    · rw [if_neg hc]; exact nodup_keysOf_setAt _ _ _ h

/-- Accumulating a key into an ordered key list, dict style: no change when
present, append when new. -/
def insertKey (ks : List String) (k : String) : List String :=
  if k ∈ ks then ks else ks ++ [k]

theorem keysOf_setAt2 (ag : List (String × List (String × String)))
    (vk q gt : String) :
    keysOf (setAt2 ag vk q gt) = insertKey (keysOf ag) vk := by
  simp only [setAt2, insertKey]
  exact keysOf_setAt _ _ _

theorem keysOf_merge_task
    (acc : List (String × List (String × String)) × List (String × List String))
    (t : TaskOut) :
    keysOf (merge_task acc t).1 =
      (keysOf t.gts).foldl insertKey (keysOf acc.1) := by
  obtain ⟨q, gts, info⟩ := t
  simp only [merge_task]
  induction gts generalizing acc with
  | nil => rfl
  | cons vg l ih =>
    rw [List.foldl_cons, ih, keysOf_cons, List.foldl_cons]
    dsimp only
    rw [keysOf_setAt2]

theorem foldl_insertKey_of_subset :
    ∀ (l ks : List String), (∀ k ∈ l, k ∈ ks) → l.foldl insertKey ks = ks := by
  intro l
  induction l with
  | nil => intro ks _; rfl
  | cons k l ih =>
    intro ks h
    rw [List.foldl_cons, insertKey, if_pos (h k (List.mem_cons_self _ _))]
    exact ih ks (fun a ha => h a (List.mem_cons_of_mem _ ha))

theorem foldl_insertKey_append :
    ∀ (l ks : List String), (ks ++ l).Nodup → l.foldl insertKey ks = ks ++ l := by
  intro l
  induction l with
  | nil => intro ks _; simp
  | cons k l ih =>
    intro ks h
    have hnotin : k ∉ ks := by
      rw [List.nodup_append] at h
      exact fun hk => h.2.2 hk (List.mem_cons_self _ _)
    rw [List.foldl_cons, insertKey, if_neg hnotin]
    have h2 : ((ks ++ [k]) ++ l).Nodup := by
      rw [List.append_assoc]
      simpa using h
    rw [ih (ks ++ [k]) h2, List.append_assoc]
    rfl

theorem keysOf_merge_rest :
    ∀ (outs : List TaskOut)
      (acc : List (String × List (String × String)) × List (String × List String))
      (Kg : List String), keysOf acc.1 = Kg → (∀ t ∈ outs, keysOf t.gts = Kg) →
      keysOf (List.foldl merge_task acc outs).1 = Kg := by
  intro outs
  induction outs with
  | nil => intro acc Kg h _; exact h
  | cons t rest ih =>
    intro acc Kg h hK
    rw [List.foldl_cons]
    apply ih _ _ (?_) (fun u hu => hK u (List.mem_cons_of_mem _ hu))
    rw [keysOf_merge_task, hK t (List.mem_cons_self _ _), h]
    exact foldl_insertKey_of_subset _ _ (fun k hk => hk)

theorem keysOf_mergeAll (outs : List TaskOut) (Kg : List String)
    (hK : ∀ t ∈ outs, keysOf t.gts = Kg) (hnd : Kg.Nodup) (hne : outs ≠ []) :
    keysOf (mergeAll outs).1 = Kg := by
  match outs, hne with
  | t :: rest, _ =>
    rw [mergeAll, List.foldl_cons]
    apply keysOf_merge_rest rest _ Kg ?_
      (fun u hu => hK u (List.mem_cons_of_mem _ hu))
    rw [keysOf_merge_task, hK t (List.mem_cons_self _ _)]
    have h0 : (([] : List String) ++ Kg).Nodup := by simpa using hnd
    have := foldl_insertKey_append Kg [] h0
    simpa using this

theorem mergeAll_info_rest :
    ∀ (outs : List TaskOut)
      (acc : List (String × List (String × String)) × List (String × List String))
      (cinfo : List (String × List String)) (Kg : List String) (vk : String),
      outs ≠ [] → (∀ t ∈ outs, t.info = cinfo ∧ keysOf t.gts = Kg) → vk ∈ Kg →
      alookup vk (List.foldl merge_task acc outs).2 =
        some ((alookup vk cinfo).getD []) := by
  intro outs
  induction outs with
  | nil => intro acc _ _ _ hne _ _; exact absurd rfl hne
  | cons t rest ih =>
    intro acc cinfo Kg vk _ hts hvk
    rw [List.foldl_cons]
    cases rest with
    | nil =>
      rw [List.foldl_nil, merge_task_info_alookup]
      have h1 := hts t (List.mem_cons_self _ _)
      rw [if_pos (by rw [h1.2]; exact hvk), h1.1]
    | cons t2 r2 =>
      exact ih _ cinfo Kg vk (by simp)
        (fun u hu => hts u (List.mem_cons_of_mem _ hu)) hvk

theorem mergeAll_info_alookup (outs : List TaskOut)
    (cinfo : List (String × List String)) (Kg : List String) (vk : String)
    (hne : outs ≠ []) (hts : ∀ t ∈ outs, t.info = cinfo ∧ keysOf t.gts = Kg)
    (hvk : vk ∈ Kg) :
    alookup vk (mergeAll outs).2 = some ((alookup vk cinfo).getD []) :=
  mergeAll_info_rest outs ([], []) cinfo Kg vk hne hts hvk

theorem alookup2_setAt2_self (ag : List (String × List (String × String)))
    (vk q gt : String) :
    alookup q ((alookup vk (setAt2 ag vk q gt)).getD []) = some gt := by
  simp only [setAt2]
  rw [alookup_setAt, if_pos rfl, Option.getD_some, alookup_setAt, if_pos rfl]

theorem alookup2_setAt2_ne_queen (ag : List (String × List (String × String)))
    (vk' q' gt vk q : String) (hq : q ≠ q') :
    alookup q ((alookup vk (setAt2 ag vk' q' gt)).getD []) =
      alookup q ((alookup vk ag).getD []) := by
  simp only [setAt2]
  rw [alookup_setAt]
  by_cases hv : vk = vk'
  · rw [if_pos hv, Option.getD_some, alookup_setAt, if_neg hq, hv]
  · rw [if_neg hv]

theorem alookup2_setAt2_ne_key (ag : List (String × List (String × String)))
    (vk' q' gt vk q : String) (hv : vk ≠ vk') :
    alookup q ((alookup vk (setAt2 ag vk' q' gt)).getD []) =
      alookup q ((alookup vk ag).getD []) := by
  simp only [setAt2]
  rw [alookup_setAt, if_neg hv]

theorem merge_task_gts_alookup_ne
    (acc : List (String × List (String × String)) × List (String × List String))
    (t : TaskOut) (vk q : String) (hq : q ≠ t.queen) :
    alookup q ((alookup vk (merge_task acc t).1).getD []) =
      alookup q ((alookup vk acc.1).getD []) := by
  obtain ⟨qt, gts, info⟩ := t
  simp only [merge_task]
  simp only at hq
  induction gts generalizing acc with
  | nil => rfl
  | cons vg l ih =>
    rw [List.foldl_cons, ih]
    dsimp only
    exact alookup2_setAt2_ne_queen _ _ _ _ _ _ hq

theorem merge_task_gts_alookup_self
    (acc : List (String × List (String × String)) × List (String × List String))
    (t : TaskOut) (vk : String) (hnd : (keysOf t.gts).Nodup) :
    alookup t.queen ((alookup vk (merge_task acc t).1).getD []) =
      (alookup vk t.gts).elim
        (alookup t.queen ((alookup vk acc.1).getD [])) some := by
  obtain ⟨q, gts, info⟩ := t
  simp only [merge_task]
  simp only at hnd
  induction gts generalizing acc with
  | nil => rfl
  | cons vg l ih =>
    rw [keysOf_cons, List.nodup_cons] at hnd
    rw [List.foldl_cons, ih _ hnd.2]
    dsimp only
    by_cases hv : vg.1 = vk
    · have hnone : alookup vk l = none :=
        alookup_eq_none_of_not_mem _ _ (by rw [← hv]; exact hnd.1)
      rw [hnone, show alookup vk (vg :: l) = some vg.2 from by
        rw [alookup, if_pos hv]]
      dsimp only [Option.elim]
      rw [← hv]
      exact alookup2_setAt2_self _ _ _ _
    · rw [show alookup vk (vg :: l) = alookup vk l from by
        rw [alookup, if_neg hv]]
      cases halt : alookup vk l with
      | some gt => rfl
      | none =>
        dsimp only [Option.elim]
        exact alookup2_setAt2_ne_key _ _ _ _ _ _ (fun h => hv h.symm)

theorem foldl_merge_gts_alookup_not_mem :
    ∀ (rest : List TaskOut)
      (acc : List (String × List (String × String)) × List (String × List String))
      (q vk : String), q ∉ rest.map TaskOut.queen →
      alookup q ((alookup vk (List.foldl merge_task acc rest).1).getD []) =
        alookup q ((alookup vk acc.1).getD []) := by
  intro rest
  induction rest with
  | nil => intro acc q vk _; rfl
  | cons t l ih =>
    intro acc q vk hq
    have h1 : q ≠ t.queen := fun h => hq (by
      rw [List.map_cons]; exact h ▸ List.mem_cons_self _ _)
    have h2 : q ∉ l.map TaskOut.queen := fun h => hq (by
      rw [List.map_cons]; exact List.mem_cons_of_mem _ h)
    rw [List.foldl_cons, ih _ _ _ h2, merge_task_gts_alookup_ne _ _ _ _ h1]

theorem mergeAll_gts_alookup_aux :
    ∀ (outs : List TaskOut)
      (acc : List (String × List (String × String)) × List (String × List String))
      (t0 : TaskOut) (vk : String),
      t0 ∈ outs → (outs.map TaskOut.queen).Nodup → (keysOf t0.gts).Nodup →
      alookup t0.queen ((alookup vk (List.foldl merge_task acc outs).1).getD []) =
        (alookup vk t0.gts).elim
          (alookup t0.queen ((alookup vk acc.1).getD [])) some := by
  intro outs
  induction outs with
  | nil => intro acc t0 vk ht _ _; exact absurd ht (List.not_mem_nil _)
  | cons t rest ih =>
    intro acc t0 vk ht hq hnd
    rw [List.map_cons, List.nodup_cons] at hq
    rcases List.mem_cons.mp ht with rfl | hmem
    · rw [List.foldl_cons, foldl_merge_gts_alookup_not_mem rest _ _ _ hq.1]
      exact merge_task_gts_alookup_self _ _ _ hnd
    · have hne : t0.queen ≠ t.queen := by
        intro h
        exact hq.1 (h ▸ List.mem_map_of_mem _ hmem)
      rw [List.foldl_cons, ih _ t0 vk hmem hq.2 hnd,
        merge_task_gts_alookup_ne _ _ _ _ hne]

theorem mergeAll_gts_alookup (outs : List TaskOut) (t0 : TaskOut) (vk : String)
    (ht : t0 ∈ outs) (hq : (outs.map TaskOut.queen).Nodup)
    (hnd : (keysOf t0.gts).Nodup) :
    alookup t0.queen ((alookup vk (mergeAll outs).1).getD []) =
      alookup vk t0.gts := by
  rw [mergeAll, mergeAll_gts_alookup_aux outs ([], []) t0 vk ht hq hnd]
  cases alookup vk t0.gts <;> rfl

theorem list_map_congr {α β : Type} (f g : α → β) :
    ∀ l : List α, (∀ a ∈ l, f a = g a) → l.map f = l.map g := by
  intro l
  induction l with
  | nil => intro _; rfl
  | cons a l ih =>
    intro h
    rw [List.map_cons, List.map_cons, h a (List.mem_cons_self _ _),
      ih (fun b hb => h b (List.mem_cons_of_mem _ hb))]

/-- C9: the written output is invariant under the order in which the task
results are merged (modelled as any permutation of the per-queen task
outputs), and the header's queen columns are the pedigree queens in
insertion order. The tasks themselves are pure functions of the input lines
and configuration, so the worker-count bound has no further influence. -/
theorem c9_output_deterministic (hdr : String) (dataLines : List String)
    (T : ℚ) (M : ℕ) (hap : Bool) (queen_map : List (String × List String))
    (outs : List TaskOut) (hnodup : (queen_map.map Prod.fst).Nodup)
    (hperm : outs.Perm (queen_map.map (fun p =>
      task_of hdr dataLines p.1 p.2 T M hap))) :
    combine_and_write hdr (queen_map.map Prod.fst) outs =
      combine_and_write hdr (queen_map.map Prod.fst)
        (queen_map.map (fun p => task_of hdr dataLines p.1 p.2 T M hap)) ∧
    (combine_and_write hdr (queen_map.map Prod.fst) outs).1 =
      (splitTab (pyStrip hdr)).take 9 ++ queen_map.map Prod.fst := by
  refine ⟨?_, rfl⟩
  by_cases hout : outs = []
  · subst hout
    rw [List.Perm.eq_nil hperm.symm]
  · have hcanne : queen_map.map (fun p => task_of hdr dataLines p.1 p.2 T M hap) ≠ [] := by
      intro h
      rw [h] at hperm
      exact hout (List.Perm.eq_nil hperm)
    have hcanprops : ∀ t ∈ queen_map.map (fun p => task_of hdr dataLines p.1 p.2 T M hap),
        t.info = task_info dataLines ∧
          keysOf t.gts = keysOf (task_info dataLines) := by
      intro t ht
      rcases List.mem_map.mp ht with ⟨p, _, rfl⟩
      exact ⟨rfl, keysOf_task_genotypes_eq dataLines _ _ T M hap⟩
    have houtprops : ∀ t ∈ outs,
        t.info = task_info dataLines ∧
          keysOf t.gts = keysOf (task_info dataLines) :=
      fun t ht => hcanprops t (hperm.subset ht)
    have hKnd : (keysOf (task_info dataLines)).Nodup :=
      nodup_keysOf_task_info dataLines
    have hqcan : (queen_map.map (fun p => task_of hdr dataLines p.1 p.2 T M hap)).map
        TaskOut.queen = queen_map.map Prod.fst := by
      rw [List.map_map]; rfl
    have hqcan_nodup : ((queen_map.map (fun p => task_of hdr dataLines p.1 p.2 T M hap)).map
        TaskOut.queen).Nodup := by
      rw [hqcan]; exact hnodup
    have hqout_nodup : (outs.map TaskOut.queen).Nodup :=
      (List.Perm.nodup_iff (hperm.map TaskOut.queen)).mpr hqcan_nodup
    have hkeyso : keysOf (mergeAll outs).1 = keysOf (task_info dataLines) :=
      keysOf_mergeAll outs _ (fun t ht => (houtprops t ht).2) hKnd hout
    have hkeysc : keysOf (mergeAll (queen_map.map (fun p =>
        task_of hdr dataLines p.1 p.2 T M hap))).1 = keysOf (task_info dataLines) :=
      keysOf_mergeAll _ _ (fun t ht => (hcanprops t ht).2) hKnd hcanne
    simp only [combine_and_write]
    refine congrArg _ ?_
    rw [output_rows, output_rows, hkeyso, hkeysc]
    apply list_map_congr
    intro vk hvk
    have hvkK : vk ∈ keysOf (task_info dataLines) := by
      rw [sorted_variant_keys] at hvk
      exact (List.perm_insertionSort sorter_le _).mem_iff.mp hvk
    congr 1
    · rw [mergeAll_info_alookup outs _ _ vk hout houtprops hvkK,
        mergeAll_info_alookup _ _ _ vk hcanne hcanprops hvkK]
    · apply list_map_congr
      intro q hq
      rcases List.mem_map.mp hq with ⟨p, hp, rfl⟩
      have ht0can : task_of hdr dataLines p.1 p.2 T M hap ∈
          queen_map.map (fun p => task_of hdr dataLines p.1 p.2 T M hap) :=
        List.mem_map_of_mem _ hp
      have ht0out : task_of hdr dataLines p.1 p.2 T M hap ∈ outs :=
        hperm.mem_iff.mpr ht0can
      have ht0nd : (keysOf (task_of hdr dataLines p.1 p.2 T M hap).gts).Nodup := by
        rw [(hcanprops _ ht0can).2]; exact hKnd
      have hgo := mergeAll_gts_alookup outs _ vk ht0out hqout_nodup ht0nd
      have hgc := mergeAll_gts_alookup (queen_map.map (fun p =>
        task_of hdr dataLines p.1 p.2 T M hap)) _ vk ht0can hqcan_nodup ht0nd
      rw [show p.1 = (task_of hdr dataLines p.1 p.2 T M hap).queen from rfl,
        hgo, hgc]

/-- Witness for C9: two queens whose task results are merged in swapped
order produce the same output as the pedigree-order merge. -/
theorem c9_output_deterministic_witness :
    ((([("q1", ["d1"]), ("q2", ["d2"])] : List (String × List String)).map
        Prod.fst).Nodup) ∧
    ([task_of "#CHROM\tPOS\tID\tREF\tALT\tQUAL\tFILTER\tINFO\tFORMAT\td1\td2"
        ["1\t5\t.\tA\tT\t.\t.\t.\tGT\t0\t1"] "q2" ["d2"] (1/8) 1 true,
      task_of "#CHROM\tPOS\tID\tREF\tALT\tQUAL\tFILTER\tINFO\tFORMAT\td1\td2"
        ["1\t5\t.\tA\tT\t.\t.\t.\tGT\t0\t1"] "q1" ["d1"] (1/8) 1 true].Perm
      (([("q1", ["d1"]), ("q2", ["d2"])] : List (String × List String)).map
        (fun p => task_of "#CHROM\tPOS\tID\tREF\tALT\tQUAL\tFILTER\tINFO\tFORMAT\td1\td2"
          ["1\t5\t.\tA\tT\t.\t.\t.\tGT\t0\t1"] p.1 p.2 (1/8) 1 true))) ∧
    (combine_and_write "#CHROM\tPOS\tID\tREF\tALT\tQUAL\tFILTER\tINFO\tFORMAT\td1\td2"
        ((([("q1", ["d1"]), ("q2", ["d2"])] : List (String × List String)).map Prod.fst))
        [task_of "#CHROM\tPOS\tID\tREF\tALT\tQUAL\tFILTER\tINFO\tFORMAT\td1\td2"
           ["1\t5\t.\tA\tT\t.\t.\t.\tGT\t0\t1"] "q2" ["d2"] (1/8) 1 true,
         task_of "#CHROM\tPOS\tID\tREF\tALT\tQUAL\tFILTER\tINFO\tFORMAT\td1\td2"
           ["1\t5\t.\tA\tT\t.\t.\t.\tGT\t0\t1"] "q1" ["d1"] (1/8) 1 true] =
      combine_and_write "#CHROM\tPOS\tID\tREF\tALT\tQUAL\tFILTER\tINFO\tFORMAT\td1\td2"
        ((([("q1", ["d1"]), ("q2", ["d2"])] : List (String × List String)).map Prod.fst))
        (([("q1", ["d1"]), ("q2", ["d2"])] : List (String × List String)).map
          (fun p => task_of "#CHROM\tPOS\tID\tREF\tALT\tQUAL\tFILTER\tINFO\tFORMAT\td1\td2"
            ["1\t5\t.\tA\tT\t.\t.\t.\tGT\t0\t1"] p.1 p.2 (1/8) 1 true)) ∧
     (combine_and_write "#CHROM\tPOS\tID\tREF\tALT\tQUAL\tFILTER\tINFO\tFORMAT\td1\td2"
        ((([("q1", ["d1"]), ("q2", ["d2"])] : List (String × List String)).map Prod.fst))
        [task_of "#CHROM\tPOS\tID\tREF\tALT\tQUAL\tFILTER\tINFO\tFORMAT\td1\td2"
           ["1\t5\t.\tA\tT\t.\t.\t.\tGT\t0\t1"] "q2" ["d2"] (1/8) 1 true,
         task_of "#CHROM\tPOS\tID\tREF\tALT\tQUAL\tFILTER\tINFO\tFORMAT\td1\td2"
           ["1\t5\t.\tA\tT\t.\t.\t.\tGT\t0\t1"] "q1" ["d1"] (1/8) 1 true]).1 =
       (splitTab (pyStrip "#CHROM\tPOS\tID\tREF\tALT\tQUAL\tFILTER\tINFO\tFORMAT\td1\td2")).take 9 ++
         (([("q1", ["d1"]), ("q2", ["d2"])] : List (String × List String)).map Prod.fst)) :=
  ⟨by decide, List.Perm.swap _ _ _,
   c9_output_deterministic
     "#CHROM\tPOS\tID\tREF\tALT\tQUAL\tFILTER\tINFO\tFORMAT\td1\td2"
     ["1\t5\t.\tA\tT\t.\t.\t.\tGT\t0\t1"] (1/8) 1 true
     [("q1", ["d1"]), ("q2", ["d2"])]
     [task_of "#CHROM\tPOS\tID\tREF\tALT\tQUAL\tFILTER\tINFO\tFORMAT\td1\td2"
        ["1\t5\t.\tA\tT\t.\t.\t.\tGT\t0\t1"] "q2" ["d2"] (1/8) 1 true,
      task_of "#CHROM\tPOS\tID\tREF\tALT\tQUAL\tFILTER\tINFO\tFORMAT\td1\td2"
        ["1\t5\t.\tA\tT\t.\t.\t.\tGT\t0\t1"] "q1" ["d1"] (1/8) 1 true]
     (by decide) (List.Perm.swap _ _ _)⟩
